import Mathlib

/-!
# Verification of the geckos.io signaling / reliability / track-routing subsystem

Shallow embedding of the repository's core logic:

* the client-side reliable-message deduplication layer
  (`packages/client/src/geckos/channel.ts`, `ClientChannel.on`),
* the jittered exponential backoff candidate poller
  (client `connectionsManager.ts`, `showBackOffIntervals`),
* the server-side bounded ICE-gathering wait
  (`WebRTCConnection.waitUntilIceGatheringStateComplete`),
* the server-side connection registry with media track routing
  (`WebRTCConnection` constructor / `setupStreams` / `doOffer` / `close`),
* the HTTP signaling routes for additional candidates and close
  (server `httpServer.ts`).

Times are modelled in milliseconds as `Nat` (JS `Date.getTime()`).
-/

/-! ## Reliability ledger (client `channel.ts`, `ClientChannel.on`) -/

/-- One entry of `receivedReliableMessages`: `{id, timestamp, expire}` as pushed by
`ClientChannel.on`.  In JS the pushed `id` is `data.ID`, which may be `undefined`,
hence `Option String`. -/
structure ReliableRecord where
  id : Option String
  timestamp : Nat
  expire : Nat
deriving DecidableEq, Repr

/-- Data arriving at the bridge callback.  A reliable envelope is a JS object
`{MESSAGE, RELIABLE, ID}`; unreliable traffic is an arbitrary object (fields absent,
modelled as `none`) or `null`. -/
inductive WireData where
  | null
  | obj (MESSAGE : String) (RELIABLE : Option Nat) (ID : Option String)
deriving DecidableEq, Repr

/-- JS property access `data.MESSAGE` (only reached on objects). -/
def WireData.getMESSAGE : WireData → String
  | .null => ""
  | .obj m _ _ => m

/-- JS property access `data.ID` (only reached on objects). -/
def WireData.getID : WireData → Option String
  | .null => none
  | .obj _ _ i => i

/-- `const isReliableMessage: boolean = data && data.RELIABLE === 1 && data.ID !== 'undefined'`.
JS `undefined !== 'undefined'` is `true`, so an absent `ID` passes the second test. -/
def isReliableMessage : WireData → Bool
  | .null => false
  | .obj _ r i => r == some 1 && i != some "undefined"

/-- `expireTime = 15_000`. -/
def expireTime : Nat := 15000

/-- The body of `deleteExpiredReliableMessages`:
`this.receivedReliableMessages.forEach((msg, index, object) => { if (msg.expire <= currentTime) object.splice(index, 1) })`.
JS `forEach` captures the original length, always advances the index, and skips holes;
`splice(index, 1)` shifts later elements down, so the element following a removed one
is never visited.  `fuel` is the captured original length; the index `k` advances on
every iteration even after a removal. -/
def spliceLoop (currentTime : Nat) : Nat → Nat → List ReliableRecord → List ReliableRecord
  | 0, _, l => l
  | fuel + 1, k, l =>
    if h : k < l.length then
      if (l.get ⟨k, h⟩).expire ≤ currentTime then
        spliceLoop currentTime fuel (k + 1) (l.eraseIdx k)
      else
        spliceLoop currentTime fuel (k + 1) l
    else l

/-- `deleteExpiredReliableMessages` from `ClientChannel.on`. -/
def deleteExpiredReliableMessages (currentTime : Nat) (l : List ReliableRecord) : List ReliableRecord :=
  spliceLoop currentTime l.length 0 l

/-- What a callback invocation received: either the raw `data` object
(unreliable path) or the unwrapped `data.MESSAGE` (reliable path). -/
inductive Delivered where
  | raw (d : WireData)
  | payload (m : String)
deriving DecidableEq, Repr

/-- One run of the listener installed by `ClientChannel.on` for a message `d`
arriving at time `now`.  Returns the new `receivedReliableMessages` and the
callback invocation, if any (`none` = duplicate rejected). -/
def channelOn (now : Nat) (st : List ReliableRecord) (d : WireData) :
    List ReliableRecord × Option Delivered :=
  if isReliableMessage d then
    let st1 := deleteExpiredReliableMessages now st
    if (st1.filter (fun o => o.id == d.getID)).length == 0 then
      (st1 ++ [{ id := d.getID, timestamp := now, expire := now + expireTime }],
        some (.payload d.getMESSAGE))
    else
      (st1, none)
  else
    (st, some (.raw d))

/-- Process a timestamped message trace through the listener, starting from ledger `st`.
Returns the final ledger and the per-message callback outcomes. -/
def channelRun (st : List ReliableRecord) : List (Nat × WireData) → List ReliableRecord × List (Option Delivered)
  | [] => (st, [])
  | (t, d) :: rest =>
    let p := channelOn t st d
    let q := channelRun p.1 rest
    (q.1, p.2 :: q.2)

/-- A reliable envelope carrying the identifier `x`. -/
def isRelId (d : WireData) (x : String) : Bool :=
  isReliableMessage d && d.getID == some x

/-! ## Candidate poller backoff (client `connectionsManager.ts`) -/

/-- `showBackOffIntervals(attempts = 10, initial = 50, factor = 1.8, jitter = 20)`:
`Array(attempts).fill(0).map((_, index) => parseInt((initial * factor ** index).toString()) + parseInt((Math.random() * jitter).toString()))`.
The identical arrow function is defined verbatim in both `connect` and `reconnect`.
Reals are modelled as `ℚ` (`1.8 = 9/5`); `parseInt(x.toString())` on a non-negative
number is truncation, i.e. `Int.floor`; `Math.random()` is modelled by the sequence
`random : Nat → ℚ` of values in `[0, 1)` drawn at the successive calls. -/
def showBackOffIntervals (random : Nat → ℚ) (attempts : Nat) (initial factor jitter : ℚ) : List ℤ :=
  (List.range attempts).map
    (fun index => ⌊initial * factor ^ index⌋ + ⌊random index * jitter⌋)

/-- The poller as invoked (`showBackOffIntervals()`), with all defaults. -/
def backOffIntervalsDefault (random : Nat → ℚ) : List ℤ :=
  showBackOffIntervals random 10 50 (9 / 5) 20

/-! ## Bounded ICE-gathering wait (server `WebRTCConnection.waitUntilIceGatheringStateComplete`) -/

/-- `TIME_TO_HOST_CANDIDATES = 10000` (ms). -/
def TIME_TO_HOST_CANDIDATES : Nat := 10000

/-- An `icecandidate` event: either a discovered candidate (`ev.candidate` non-null,
candidates abstracted as `Nat`) or the end-of-gathering event (`ev.candidate === null`). -/
inductive IceEvent where
  | candidate (c : Nat)
  | nullCandidate
deriving DecidableEq, Repr

/-- `true` exactly on discovered (non-null) candidates. -/
def isCandidateEvent : IceEvent → Bool
  | .candidate _ => true
  | .nullCandidate => false

/-- How the promise of `waitUntilIceGatheringStateComplete` settled. -/
inductive WaitOutcome where
  | immediate
  | resolved (t : Nat)
  | rejected (t : Nat)
deriving DecidableEq, Repr

/-- The promise body: a `setTimeout` at `deadline` races the `icecandidate` listener.
Events are a time-ordered trace.  `total` is `totalIceCandidates` (incremented on every
event), `acc` is `this.additionalCandidates` (non-null candidates are pushed).
A non-null candidate before the deadline is recorded and the wait continues; a null
candidate before the deadline clears the timeout and resolves; when the deadline is
reached first, the timer resolves if `totalIceCandidates > 0` and rejects otherwise. -/
def runIceWait (deadline : Nat) : List (Nat × IceEvent) → Nat → List Nat → WaitOutcome × List Nat
  | [], total, acc =>
    (if 0 < total then .resolved deadline else .rejected deadline, acc)
  | (t, ev) :: rest, total, acc =>
    if deadline ≤ t then
      (if 0 < total then .resolved deadline else .rejected deadline, acc)
    else
      match ev with
      | .candidate c => runIceWait deadline rest (total + 1) (acc ++ [c])
      | .nullCandidate => (.resolved t, acc)

/-- `waitUntilIceGatheringStateComplete`: returns immediately when
`peerConnection.iceGatheringState === 'complete'`, otherwise runs the promise
against the event trace with `timeToHostCandidates = TIME_TO_HOST_CANDIDATES`. -/
def waitUntilIceGatheringStateComplete (initiallyComplete : Bool)
    (events : List (Nat × IceEvent)) : WaitOutcome × List Nat :=
  if initiallyComplete then (.immediate, [])
  else runIceWait TIME_TO_HOST_CANDIDATES events 0 []

/-! ## Server connection registry and media track routing (server `webrtcConnection.ts`) -/

/-- An `RTCRtpTransceiver` created by `addTransceiver`: identified by a fresh `tid`;
`senderTrack` is `sender.track` (set by `sender.replaceTrack`, initially `null`).
node-webrtc updates `sender.track` when `replaceTrack` is invoked, which we model
synchronously.  The receiver of a transceiver always carries a track; we identify
`receiver.track` with the transceiver's `tid` (see `receiverTrack`). -/
structure Transceiver where
  tid : Nat
  senderTrack : Option Nat
deriving DecidableEq, Repr

/-- `transceiver.receiver.track`: present from creation, identified by the
transceiver id. -/
def receiverTrack (t : Transceiver) : Nat := t.tid

/-- A server-side `WebRTCConnection`.  `audioMap`/`videoMap` are the JS `Map`s from
other connections' channel ids to forwarding transceivers (insertion-ordered
association lists).  `additionalCandidates` is the queue drained by the
additional-candidates HTTP route; `localDescription` abstracts the SDP blob set by
`setLocalDescription` (fresh values for fresh offers). -/
structure SConn where
  id : String
  audio : Option Transceiver
  video : Option Transceiver
  audioMap : List (String × Transceiver)
  videoMap : List (String × Transceiver)
  additionalCandidates : List Nat
  localDescription : Option Nat
deriving DecidableEq, Repr

/-- JS `Map.prototype.set`: replace the value at an existing key in place, else
append a new entry (insertion order; keys are unique in a JS `Map`). -/
def mapSet : List (String × Transceiver) → String → Transceiver → List (String × Transceiver)
  | [], k, v => [(k, v)]
  | p :: rest, k, v => if p.1 == k then (k, v) :: rest else p :: mapSet rest k v

/-- JS `Map.prototype.has`. -/
def hasKey (m : List (String × Transceiver)) (k : String) : Bool :=
  m.any (fun p => p.1 == k)

/-- The body of the `this.connections.forEach((theirConnection) => ...)` loop of the
video branch of `setupStreams`, for one existing connection `their`:
`theirVideo = theirConnection.peerConnection.addTransceiver('video')`;
`theirVideo.sender.replaceTrack(this.video.receiver.track)`;
`theirConnection.videoMap.set(this.id, theirVideo)`;
`myVideo = this.peerConnection.addTransceiver('video')`;
`myVideo.sender.replaceTrack(theirConnection.video.receiver.track)`;
`if (myVideo.sender.track) this.videoMap.set(theirConnection.id, myVideo)`.
If `their.video` is `undefined`, reading `.receiver` throws a `TypeError`.
`n` is the fresh transceiver-id supply; `acc` is the new connection's `videoMap`. -/
def wireVideoOne (selfId : String) (selfVideo : Transceiver) (n : Nat)
    (acc : List (String × Transceiver)) (their : SConn) :
    Except String (SConn × List (String × Transceiver) × Nat) :=
  let theirVideo : Transceiver := { tid := n, senderTrack := some (receiverTrack selfVideo) }
  let their1 := { their with videoMap := mapSet their.videoMap selfId theirVideo }
  match their.video with
  | none => Except.error "TypeError: Cannot read properties of undefined (reading receiver)"
  | some tv =>
    let myVideo : Transceiver := { tid := n + 1, senderTrack := some (receiverTrack tv) }
    let acc1 := if myVideo.senderTrack.isSome then mapSet acc their.id myVideo else acc
    Except.ok (their1, acc1, n + 2)

/-- The whole `connections.forEach` loop of the video branch, over the registry in
insertion order. -/
def wireVideoAll (selfId : String) (selfVideo : Transceiver) :
    List SConn → List (String × Transceiver) → Nat →
    Except String (List SConn × List (String × Transceiver) × Nat)
  | [], acc, n => Except.ok ([], acc, n)
  | their :: rest, acc, n =>
    match wireVideoOne selfId selfVideo n acc their with
    | .error e => .error e
    | .ok (their1, acc1, n1) =>
      match wireVideoAll selfId selfVideo rest acc1 n1 with
      | .error e => .error e
      | .ok (others1, acc2, n2) => .ok (their1 :: others1, acc2, n2)

/-- Audio counterpart of `wireVideoOne` (the audio branch of `setupStreams` is the
same code with `audio`/`audioMap` in place of `video`/`videoMap`). -/
def wireAudioOne (selfId : String) (selfAudio : Transceiver) (n : Nat)
    (acc : List (String × Transceiver)) (their : SConn) :
    Except String (SConn × List (String × Transceiver) × Nat) :=
  let theirAudio : Transceiver := { tid := n, senderTrack := some (receiverTrack selfAudio) }
  let their1 := { their with audioMap := mapSet their.audioMap selfId theirAudio }
  match their.audio with
  | none => Except.error "TypeError: Cannot read properties of undefined (reading receiver)"
  | some ta =>
    let myAudio : Transceiver := { tid := n + 1, senderTrack := some (receiverTrack ta) }
    let acc1 := if myAudio.senderTrack.isSome then mapSet acc their.id myAudio else acc
    Except.ok (their1, acc1, n + 2)

/-- Audio counterpart of `wireVideoAll`. -/
def wireAudioAll (selfId : String) (selfAudio : Transceiver) :
    List SConn → List (String × Transceiver) → Nat →
    Except String (List SConn × List (String × Transceiver) × Nat)
  | [], acc, n => Except.ok ([], acc, n)
  | their :: rest, acc, n =>
    match wireAudioOne selfId selfAudio n acc their with
    | .error e => .error e
    | .ok (their1, acc1, n1) =>
      match wireAudioAll selfId selfAudio rest acc1 n1 with
      | .error e => .error e
      | .ok (others1, acc2, n2) => .ok (their1 :: others1, acc2, n2)

/-- The video branch of `setupStreams`: `if (enableVideo) { if (!this.video) { this.video = this.peerConnection.addTransceiver('video') } this.connections.forEach(...) }`.
`self` is the connection under construction, `others` the current registry contents
(the new connection is registered only after the constructor returns), `n` the fresh
transceiver-id supply. -/
def setupStreamsVideo (enableVideo : Bool) (self : SConn) (others : List SConn) (n : Nat) :
    Except String (SConn × List SConn × Nat) :=
  if enableVideo then
    match self.video with
    | none =>
      let sv : Transceiver := { tid := n, senderTrack := none }
      let self1 := { self with video := some sv }
      (wireVideoAll self1.id sv others self1.videoMap (n + 1)).map
        (fun r => ({ self1 with videoMap := r.2.1 }, r.1, r.2.2))
    | some sv =>
      (wireVideoAll self.id sv others self.videoMap n).map
        (fun r => ({ self with videoMap := r.2.1 }, r.1, r.2.2))
  else
    Except.ok (self, others, n)

/-- The audio branch of `setupStreams` (same shape as the video branch). -/
def setupStreamsAudio (enableAudio : Bool) (self : SConn) (others : List SConn) (n : Nat) :
    Except String (SConn × List SConn × Nat) :=
  if enableAudio then
    match self.audio with
    | none =>
      let sa : Transceiver := { tid := n, senderTrack := none }
      let self1 := { self with audio := some sa }
      (wireAudioAll self1.id sa others self1.audioMap (n + 1)).map
        (fun r => ({ self1 with audioMap := r.2.1 }, r.1, r.2.2))
    | some sa =>
      (wireAudioAll self.id sa others self.audioMap n).map
        (fun r => ({ self with audioMap := r.2.1 }, r.1, r.2.2))
  else
    Except.ok (self, others, n)

/-- `setupStreams(enableAudio, enableVideo)`: the video block runs first, then the
audio block (source order). -/
def setupStreams (enableAudio enableVideo : Bool) (self : SConn) (others : List SConn) (n : Nat) :
    Except String (SConn × List SConn × Nat) :=
  match setupStreamsVideo enableVideo self others n with
  | .error e => .error e
  | .ok (s1, o1, n1) => setupStreamsAudio enableAudio s1 o1 n1

/-- A `WebRTCConnection` as freshly allocated, before `setupStreams`. -/
def newSConn (id : String) : SConn :=
  { id := id, audio := none, video := none, audioMap := [], videoMap := [],
    additionalCandidates := [], localDescription := none }

/-- The `WebRTCConnection` constructor: destructures `enableAudio`/`enableVideo`
from the server options, then calls `this.setupStreams(enableVideo, enableVideo)`
(source line 58 — the first argument position is `setupStreams`' `enableAudio`
parameter, but the constructor passes `enableVideo` there; `enableAudio` is
destructured and never used). -/
def createWebRTCConnection (id : String) (enableAudio enableVideo : Bool)
    (others : List SConn) (n : Nat) : Except String (SConn × List SConn × Nat) :=
  let _ := enableAudio
  setupStreams enableVideo enableVideo (newSConn id) others n

/-- `doOffer` (success path): `createOffer` + `setLocalDescription` install a fresh
local description (`offer`, fresh by assumption on the transport primitive), and the
un-awaited `waitUntilIceGatheringStateComplete` pushes the candidates it discovers
(`discovered`) onto `additionalCandidates`.  Nothing else on the connection is
touched. -/
def doOffer (c : SConn) (offer : Nat) (discovered : List Nat) : SConn :=
  { c with localDescription := some offer,
           additionalCandidates := c.additionalCandidates ++ discovered }

/-- `WebRTCConnection.reconnect()`: `await this.doOffer()`. -/
def reconnectConn (c : SConn) (offer : Nat) (discovered : List Nat) : SConn :=
  doOffer c offer discovered

/-- The registry of live connections (`connectionsManager.connections`, a JS `Map`
in insertion order) plus the fresh-identifier supply for transceivers and offers. -/
structure RegState where
  registry : List SConn
  nextFresh : Nat
deriving DecidableEq, Repr

/-- `connectionsManager.getConnection(id)`. -/
def findConn (reg : List SConn) (id : String) : Option SConn :=
  reg.find? (fun c => c.id == id)

/-- Modelled from the spec: the cleanup performed when a connection closes.
`WebRTCConnection.close` only does `this.peerConnection.close(); super.close()`;
the base `Connection` class and the server connections manager are not in `src/`.
Per spec §3/§4.4, closing X removes X from the registry and removes X's entry from
every other live connection's peer routes (`audioMap`/`videoMap`). -/
def closeConn (st : RegState) (id : String) : RegState :=
  { st with registry := (st.registry.filter (fun c => c.id != id)).map
                (fun c => { c with audioMap := c.audioMap.filter (fun p => p.1 != id),
                                   videoMap := c.videoMap.filter (fun p => p.1 != id) }) }

/-- Registry-level operations driven by the HTTP signaling surface. -/
inductive Op where
  | create (id : String) (enableAudio enableVideo : Bool)
  | close (id : String)
  | reconnect (id : String)
deriving DecidableEq, Repr

/-- One operation on the registry.
`create`: the manager allocates a fresh 24-character id (modelled from the spec:
`id` is unique across all live connections — the manager is not in `src/`; a clash
is rejected), constructs a `WebRTCConnection` (which runs `setupStreams` against the
existing registry) and registers it.
`close`: `connectionsManager.getConnection(id)?.close()` — a no-op for unknown ids.
`reconnect`: `connection.reconnect()` = `doOffer` with a fresh local description;
404 (state unchanged) for unknown ids. -/
def applyOp (st : RegState) : Op → Except String RegState
  | .create id ea ev =>
    if st.registry.any (fun c => c.id == id) then
      .error "duplicate connection id"
    else
      match createWebRTCConnection id ea ev st.registry st.nextFresh with
      | .error e => .error e
      | .ok (self, others, n1) => .ok { registry := others ++ [self], nextFresh := n1 }
  | .close id => .ok (closeConn st id)
  | .reconnect id =>
    match findConn st.registry id with
    | none => .ok st
    | some _ =>
      .ok { registry := st.registry.map
              (fun c => if c.id == id then doOffer c st.nextFresh [] else c),
            nextFresh := st.nextFresh + 1 }

/-- Run a sequence of operations. -/
def runOps : RegState → List Op → Except String RegState
  | st, [] => .ok st
  | st, op :: rest =>
    match applyOp st op with
    | .error e => .error e
    | .ok st1 => runOps st1 rest

/-- The empty registry. -/
def initRegState : RegState := { registry := [], nextFresh := 0 }

/-! ## HTTP routes (server `httpServer.ts`) -/

/-- Response of the `GET /connections/{id}/additional-candidates` route. -/
inductive CandidatesResponse where
  | badRequest
  | notFound
  | okJson (cs : List Nat)
deriving DecidableEq, Repr

/-- The `additional-candidates` branch: `ids = pathname.match(/[0-9a-zA-Z]{24}/g)`;
unless exactly one id was extracted → 400; unknown connection → 404; otherwise
`const additionalCandidates = [...connection.additionalCandidates];
connection.additionalCandidates = []; res.write(JSON.stringify(additionalCandidates))`. -/
def additionalCandidatesRoute (st : RegState) (ids : Option (List String)) :
    CandidatesResponse × RegState :=
  match ids with
  | some [id] =>
    (match findConn st.registry id with
     | none => (.notFound, st)
     | some conn =>
       (.okJson conn.additionalCandidates,
        { st with registry := st.registry.map
                      (fun c => if c.id == id then { c with additionalCandidates := [] } else c) }))
  | _ => (.badRequest, st)

/-- What the `close` route writes back on the wire. -/
inductive CloseRouteResponse where
  | status (code : Nat)
  | noResponse
deriving DecidableEq, Repr

/-- The `POST /connections/{id}/close` branch: with exactly one extracted id it runs
`connection?.close()` and then falls off the end of the handler — no status line and
no body are ever written; with a malformed path it ends the response with 400. -/
def closeRoute (st : RegState) (ids : Option (List String)) : CloseRouteResponse × RegState :=
  match ids with
  | some [id] =>
    (.noResponse,
     match findConn st.registry id with
     | none => st
     | some _ => closeConn st id)
  | _ => (.status 400, st)

/-! ## Invariant predicates and concrete fixtures -/

/-- Relation between a pre-existing connection and its state after the video branch of
a new connection's `setupStreams` visited it: only its `videoMap` changed, by a
`Map.set` keyed with the new connection's id. -/
def VideoWired (selfId : String) (t t1 : SConn) : Prop :=
  t1.id = t.id ∧ t1.video = t.video ∧ t1.audio = t.audio ∧ t1.audioMap = t.audioMap ∧
    t1.additionalCandidates = t.additionalCandidates ∧
    t1.localDescription = t.localDescription ∧
    ∃ tr, t1.videoMap = mapSet t.videoMap selfId tr

/-- Audio counterpart of `VideoWired`. -/
def AudioWired (selfId : String) (t t1 : SConn) : Prop :=
  t1.id = t.id ∧ t1.video = t.video ∧ t1.audio = t.audio ∧ t1.videoMap = t.videoMap ∧
    t1.additionalCandidates = t.additionalCandidates ∧
    t1.localDescription = t.localDescription ∧
    ∃ tr, t1.audioMap = mapSet t.audioMap selfId tr

/-- Registry invariant: live ids are distinct; any two distinct live connections with
video enabled route to each other; and every peer-route key (video and audio) names a
live connection (no dangling forwarding targets). -/
def RegInv (st : RegState) : Prop :=
  (st.registry.map SConn.id).Nodup
  ∧ (∀ a ∈ st.registry, ∀ b ∈ st.registry, a.id ≠ b.id →
      a.video.isSome → b.video.isSome →
      hasKey a.videoMap b.id = true ∧ hasKey b.videoMap a.id = true)
  ∧ (∀ a ∈ st.registry, ∀ p ∈ a.videoMap, ∃ b ∈ st.registry, b.id = p.1)
  ∧ (∀ a ∈ st.registry, ∀ p ∈ a.audioMap, ∃ b ∈ st.registry, b.id = p.1)

/-- Fixture: two video-enabled connections joining an empty registry. -/
def c6Ops : List Op := [.create "a" false true, .create "b" false true]

/-- Fixture: the state of connection "a" after `c6Ops`. -/
def c6ConnA : SConn :=
  { id := "a", audio := some { tid := 1, senderTrack := none },
    video := some { tid := 0, senderTrack := none },
    audioMap := [("b", { tid := 6, senderTrack := some 5 })],
    videoMap := [("b", { tid := 3, senderTrack := some 2 })],
    additionalCandidates := [], localDescription := none }

/-- Fixture: the state of connection "b" after `c6Ops`. -/
def c6ConnB : SConn :=
  { id := "b", audio := some { tid := 5, senderTrack := none },
    video := some { tid := 2, senderTrack := none },
    audioMap := [("a", { tid := 7, senderTrack := some 1 })],
    videoMap := [("a", { tid := 4, senderTrack := some 0 })],
    additionalCandidates := [], localDescription := none }

/-- Fixture: the registry reached by `c6Ops`. -/
def c6State : RegState := { registry := [c6ConnA, c6ConnB], nextFresh := 8 }

/-! ## Theorems -/

/-- C10: a received message with `RELIABLE === 1` but `ID === 'undefined'` is classified
as unreliable: the deduplication ledger is bypassed and left unchanged, and the full
envelope (not the unwrapped `MESSAGE`) is handed to the callback, on every receipt. -/
theorem reliable_flag_undefined_id_treated_unreliable (st : List ReliableRecord)
    (now : Nat) (m : String) :
    channelOn now st (WireData.obj m (some 1) (some "undefined")) =
      (st, some (Delivered.raw (WireData.obj m (some 1) (some "undefined")))) := by
  simp [channelOn, isReliableMessage]

/-- C2 (code bug): the `forEach`+`splice` prune skips the element that shifts into a
removed slot, so with two consecutive expired records the second survives the pass, and
a reliable envelope re-using its id more than 15 s after the last receipt is dropped
instead of delivered as a new message.  Concretely: ids "a"/"b" first seen at 0 ms/1 ms,
and "b" resent at 20000 ms. -/
theorem prune_skips_survivor_and_drops_stale_resend :
    deleteExpiredReliableMessages 20000
        [{ id := some "a", timestamp := 0, expire := 15000 },
         { id := some "b", timestamp := 1, expire := 15001 }]
      = [{ id := some "b", timestamp := 1, expire := 15001 }]
    ∧ (channelRun [] [(0, WireData.obj "p" (some 1) (some "a")),
                      (1, WireData.obj "q" (some 1) (some "b")),
                      (20000, WireData.obj "r" (some 1) (some "b"))]).2
      = [some (Delivered.payload "p"), some (Delivered.payload "q"), none] := by
  exact ⟨rfl, rfl⟩

/-- C5 (code bug): the `WebRTCConnection` constructor passes `enableVideo` in the
`enableAudio` argument position of `setupStreams`, so creating a connection with
`enableAudio = true, enableVideo = false` creates neither an audio transceiver nor any
audio routes, while `enableAudio = false, enableVideo = true` does create the audio
transceiver. -/
theorem audio_enabled_alone_creates_no_audio_routes :
    runOps initRegState [Op.create "a" true false]
      = Except.ok { registry := [newSConn "a"], nextFresh := 0 }
    ∧ (runOps initRegState [Op.create "a" false true]).map
        (fun st => st.registry.map (fun c => c.audio.isSome))
      = Except.ok [true] := by
  exact ⟨rfl, rfl⟩

/-- C9 (code bug): the `close` route with a well-formed id of a live connection closes
the connection but never writes an HTTP response (no status code, no body) — the
handler falls off the end of the branch, so the claimed empty-body 200 response is
never produced. -/
theorem close_route_closes_but_never_responds :
    (closeRoute { registry := [newSConn "aaaaaaaaaaaaaaaaaaaaaaaa"], nextFresh := 0 }
        (some ["aaaaaaaaaaaaaaaaaaaaaaaa"])).1 = CloseRouteResponse.noResponse
    ∧ (closeRoute { registry := [newSConn "aaaaaaaaaaaaaaaaaaaaaaaa"], nextFresh := 0 }
        (some ["aaaaaaaaaaaaaaaaaaaaaaaa"])).2.registry = [] := by
  exact ⟨rfl, rfl⟩

/-- C8: renegotiation (`reconnect` = `doOffer`) installs a brand-new local description
and touches nothing else: the outbound audio/video transceivers and every entry of the
`audioMap`/`videoMap` routing tables are unchanged. -/
theorem reconnect_preserves_media_routes (c : SConn) (offer : Nat) (discovered : List Nat)
    (hfresh : c.localDescription ≠ some offer) :
    (reconnectConn c offer discovered).audio = c.audio
    ∧ (reconnectConn c offer discovered).video = c.video
    ∧ (reconnectConn c offer discovered).audioMap = c.audioMap
    ∧ (reconnectConn c offer discovered).videoMap = c.videoMap
    ∧ (reconnectConn c offer discovered).localDescription = some offer
    ∧ (reconnectConn c offer discovered).localDescription ≠ c.localDescription := by
  refine ⟨rfl, rfl, rfl, rfl, rfl, ?_⟩
  simpa [reconnectConn, doOffer] using fun he => hfresh he.symm

/-- Witness for `reconnect_preserves_media_routes` at a concrete connection. -/
theorem reconnect_preserves_media_routes_witness :
    (reconnectConn c6ConnA 42 [9]).audio = c6ConnA.audio
    ∧ (reconnectConn c6ConnA 42 [9]).video = c6ConnA.video
    ∧ (reconnectConn c6ConnA 42 [9]).audioMap = c6ConnA.audioMap
    ∧ (reconnectConn c6ConnA 42 [9]).videoMap = c6ConnA.videoMap
    ∧ (reconnectConn c6ConnA 42 [9]).localDescription = some 42
    ∧ (reconnectConn c6ConnA 42 [9]).localDescription ≠ c6ConnA.localDescription := by
  exact reconnect_preserves_media_routes c6ConnA 42 [9] (by decide)


theorem findConn_map_keyed (g : SConn → SConn) (hg : ∀ c, (g c).id = c.id) (id : String) :
    ∀ (reg : List SConn) (conn : SConn), findConn reg id = some conn →
      findConn (reg.map g) id = some (g conn) := by
  intro reg
  induction reg with
  | nil => intro conn h; simp [findConn] at h
  | cons c rest ih =>
    intro conn h
    rcases hc : (c.id == id) with _ | _
    · have h1 : findConn rest id = some conn := by
        unfold findConn at h ⊢
        rwa [List.find?_cons_of_neg _ (by simp [hc])] at h
      have h2 := ih conn h1
      unfold findConn at h2 ⊢
      rw [List.map_cons, List.find?_cons_of_neg _ (by simp [hg, hc])]
      exact h2
    · have h1 : c = conn := by
        unfold findConn at h
        rw [List.find?_cons_of_pos _ (by simp [hc])] at h
        exact Option.some.inj h
      subst h1
      unfold findConn
      rw [List.map_cons, List.find?_cons_of_pos _ (by simp [hg, hc])]

/-- C7: polling `GET /connections/{id}/additional-candidates` for a known connection
returns exactly the queued candidates, in order, and clears the queue, so an immediate
second poll (before any further candidate is discovered) returns the empty array. -/
theorem additional_candidates_drained (st : RegState) (id : String) (conn : SConn)
    (h : findConn st.registry id = some conn) :
    (additionalCandidatesRoute st (some [id])).1
        = CandidatesResponse.okJson conn.additionalCandidates
    ∧ (additionalCandidatesRoute (additionalCandidatesRoute st (some [id])).2 (some [id])).1
        = CandidatesResponse.okJson [] := by
  have hmap := findConn_map_keyed
      (fun c => if c.id == id then { c with additionalCandidates := [] } else c)
      (fun c => by dsimp only; split <;> rfl) id st.registry conn h
  have h' : st.registry.find? (fun c => c.id == id) = some conn := h
  have hp : (conn.id == id) = true := by simpa using List.find?_some h'
  constructor
  · simp only [additionalCandidatesRoute, h]
  · simp only [additionalCandidatesRoute, h, hmap, hp, if_true]

/-- Witness for `additional_candidates_drained`: a connection with three queued
candidates is drained to the empty queue. -/
theorem additional_candidates_drained_witness :
    (additionalCandidatesRoute
        { registry := [{ newSConn "c" with additionalCandidates := [1, 2, 3] }], nextFresh := 0 }
        (some ["c"])).1 = CandidatesResponse.okJson [1, 2, 3]
    ∧ (additionalCandidatesRoute
        (additionalCandidatesRoute
          { registry := [{ newSConn "c" with additionalCandidates := [1, 2, 3] }], nextFresh := 0 }
          (some ["c"])).2 (some ["c"])).1 = CandidatesResponse.okJson [] := by
  exact additional_candidates_drained _ "c"
    { newSConn "c" with additionalCandidates := [1, 2, 3] } rfl

theorem backOffIntervalsDefault_getD (random : Nat → ℚ) {i : Nat} (hi : i < 10) :
    (backOffIntervalsDefault random).getD i 0
      = ⌊50 * (9 / 5 : ℚ) ^ i⌋ + ⌊random i * 20⌋ := by
  unfold backOffIntervalsDefault showBackOffIntervals
  rw [List.getD_eq_getElem?_getD, List.getElem?_map, List.getElem?_range hi]
  rfl

/-- C4 (counterexample): with `Math.random()` drawing 0 (a legal value), the 4th
scheduled delay (attempt `i = 3`) is `⌊50·1.8³⌋ = 291` ms, strictly below the claimed
lower bound `50·1.8³ = 291.6` ms. -/
theorem backoff_lower_bound_fails_at_attempt_three :
    (backOffIntervalsDefault (fun _ => 0)).getD 3 0 = 291
    ∧ ¬ (50 * (9 / 5 : ℚ) ^ 3 ≤ (291 : ℚ)) := by
  constructor
  · rw [backOffIntervalsDefault_getD _ (by norm_num)]
    have h1 : ⌊50 * (9 / 5 : ℚ) ^ 3⌋ = 291 := by
      rw [Int.floor_eq_iff]
      norm_num
    have h2 : ⌊(0 : ℚ) * 20⌋ = 0 := by norm_num
    rw [h1, h2]
    rfl
  · norm_num

/-- C4 (amended): each run of the candidate poller (identical code in `connect` and
`reconnect`) schedules exactly 10 poll attempts, and for every attempt `i` the delay
satisfies `50·1.8^i − 1 < delay < 50·1.8^i + 20` (equivalently
`⌊50·1.8^i⌋ ≤ delay ≤ ⌊50·1.8^i⌋ + 19`); the claimed lower bound `50·1.8^i ≤ delay`
fails whenever `50·1.8^i` is not an integer and the jitter draw is small enough. -/
theorem backoff_ten_attempts_and_floor_bounds (random : Nat → ℚ)
    (h : ∀ i, 0 ≤ random i ∧ random i < 1) :
    (backOffIntervalsDefault random).length = 10
    ∧ ∀ i, i < 10 →
        50 * (9 / 5 : ℚ) ^ i - 1 < ((backOffIntervalsDefault random).getD i 0 : ℚ)
        ∧ ((backOffIntervalsDefault random).getD i 0 : ℚ) < 50 * (9 / 5 : ℚ) ^ i + 20 := by
  constructor
  · simp [backOffIntervalsDefault, showBackOffIntervals]
  · intro i hi
    rw [backOffIntervalsDefault_getD random hi]
    have h0 : (0 : ℚ) ≤ random i := (h i).1
    have h1 : random i < 1 := (h i).2
    have hj0 : (0 : ℤ) ≤ ⌊random i * 20⌋ := Int.floor_nonneg.mpr (by positivity)
    have hj1 : ⌊random i * 20⌋ ≤ (19 : ℤ) := by
      have hlt : ⌊random i * 20⌋ < 20 := Int.floor_lt.mpr (by push_cast; nlinarith)
      omega
    have hfl : 50 * (9 / 5 : ℚ) ^ i - 1 < (⌊50 * (9 / 5 : ℚ) ^ i⌋ : ℚ) :=
      Int.sub_one_lt_floor _
    have hfu : (⌊50 * (9 / 5 : ℚ) ^ i⌋ : ℚ) ≤ 50 * (9 / 5 : ℚ) ^ i := Int.floor_le _
    have hj0q : (0 : ℚ) ≤ (⌊random i * 20⌋ : ℚ) := by exact_mod_cast hj0
    have hj1q : (⌊random i * 20⌋ : ℚ) ≤ 19 := by exact_mod_cast hj1
    constructor
    · push_cast
      linarith
    · push_cast
      linarith

/-- Witness for `backoff_ten_attempts_and_floor_bounds` with the constant draw 1/2,
instantiated at attempt 3. -/
theorem backoff_ten_attempts_and_floor_bounds_witness :
    (backOffIntervalsDefault (fun _ => 1 / 2)).length = 10
    ∧ (50 * (9 / 5 : ℚ) ^ 3 - 1 < ((backOffIntervalsDefault (fun _ => 1 / 2)).getD 3 0 : ℚ)
        ∧ ((backOffIntervalsDefault (fun _ => 1 / 2)).getD 3 0 : ℚ) < 50 * (9 / 5 : ℚ) ^ 3 + 20) := by
  have h := backoff_ten_attempts_and_floor_bounds (fun _ => 1 / 2) (fun i => by norm_num)
  exact ⟨h.1, h.2 3 (by norm_num)⟩

theorem runIceWait_rejected_eq_deadline {D : Nat} :
    ∀ (events : List (Nat × IceEvent)) (total : Nat) (acc : List Nat) (t : Nat),
      (runIceWait D events total acc).1 = .rejected t → t = D := by
  intro events
  induction events with
  | nil =>
    intro total acc t h
    by_cases ht : 0 < total <;> simp [runIceWait, ht] at h <;> omega
  | cons e rest ih =>
    intro total acc t h
    obtain ⟨te, ev⟩ := e
    by_cases hd : D ≤ te
    · by_cases ht : 0 < total <;> simp [runIceWait, hd, ht] at h <;> omega
    · cases ev with
      | candidate c =>
        simp only [runIceWait, if_neg hd] at h
        exact ih _ _ _ h
      | nullCandidate => simp [runIceWait, hd] at h

theorem runIceWait_pos_total_not_rejected {D : Nat} :
    ∀ (events : List (Nat × IceEvent)) (total : Nat) (acc : List Nat) (t : Nat),
      0 < total → (runIceWait D events total acc).1 ≠ .rejected t := by
  intro events
  induction events with
  | nil => intro total acc t ht; simp [runIceWait, ht]
  | cons e rest ih =>
    intro total acc t ht
    obtain ⟨te, ev⟩ := e
    by_cases hd : D ≤ te
    · simp [runIceWait, hd, ht]
    · cases ev with
      | candidate c =>
        simp only [runIceWait, if_neg hd]
        exact ih _ _ _ (Nat.succ_pos _)
      | nullCandidate => simp [runIceWait, hd]

theorem runIceWait_resolved_or_rejected {D : Nat} :
    ∀ (events : List (Nat × IceEvent)) (total : Nat) (acc : List Nat),
      (∃ t, (runIceWait D events total acc).1 = .resolved t)
      ∨ (∃ t, (runIceWait D events total acc).1 = .rejected t) := by
  intro events
  induction events with
  | nil =>
    intro total acc
    by_cases ht : 0 < total
    · exact Or.inl ⟨D, by simp [runIceWait, ht]⟩
    · exact Or.inr ⟨D, by simp [runIceWait, ht]⟩
  | cons e rest ih =>
    intro total acc
    obtain ⟨te, ev⟩ := e
    by_cases hd : D ≤ te
    · by_cases ht : 0 < total
      · exact Or.inl ⟨D, by simp [runIceWait, hd, ht]⟩
      · exact Or.inr ⟨D, by simp [runIceWait, hd, ht]⟩
    · cases ev with
      | candidate c =>
        simpa only [runIceWait, if_neg hd] using ih (total + 1) (acc ++ [c])
      | nullCandidate => exact Or.inl ⟨te, by simp [runIceWait, hd]⟩

theorem runIceWait_rejected_no_candidate {D : Nat} :
    ∀ (events : List (Nat × IceEvent)) (total : Nat) (acc : List Nat) (t : Nat),
      List.Pairwise (fun a b => a.1 ≤ b.1) events →
      (runIceWait D events total acc).1 = .rejected t →
      ∀ e ∈ events, e.1 < D → isCandidateEvent e.2 = false := by
  intro events
  induction events with
  | nil => intro total acc t _ _ e he; simp at he
  | cons e0 rest ih =>
    intro total acc t hsort h e he hlt
    obtain ⟨te, ev⟩ := e0
    obtain ⟨hhead, hrest⟩ := List.pairwise_cons.mp hsort
    by_cases hd : D ≤ te
    · exfalso
      rcases List.mem_cons.mp he with he' | he'
      · have h1 : e.1 = te := by rw [he']
        omega
      · have h1 : te ≤ e.1 := hhead e he'
        omega
    · cases ev with
      | candidate c =>
        simp only [runIceWait, if_neg hd] at h
        exact absurd h (runIceWait_pos_total_not_rejected _ _ _ _ (Nat.succ_pos _))
      | nullCandidate => simp [runIceWait, hd] at h

/-- C3: over any time-ordered `icecandidate` trace, (1) the wait can only reject at
exactly the 10-second deadline, and rejection implies no candidate was discovered
before the deadline (so failure is never before 10 s and never with candidates in
hand); (2) if at least one candidate arrives before the deadline, the wait resolves
(degraded success) rather than failing; (3) if gathering was not already complete and
nothing at all arrives before the deadline, the wait rejects at exactly 10 s. -/
theorem iceGathering_failure_only_at_deadline (events : List (Nat × IceEvent))
    (hsort : List.Pairwise (fun a b => a.1 ≤ b.1) events) :
    (∀ ic t, (waitUntilIceGatheringStateComplete ic events).1 = .rejected t →
        t = TIME_TO_HOST_CANDIDATES
        ∧ ∀ e ∈ events, e.1 < TIME_TO_HOST_CANDIDATES → isCandidateEvent e.2 = false)
    ∧ ((∃ e ∈ events, e.1 < TIME_TO_HOST_CANDIDATES ∧ isCandidateEvent e.2 = true) →
        ∃ t, (waitUntilIceGatheringStateComplete false events).1 = .resolved t)
    ∧ ((∀ e ∈ events, TIME_TO_HOST_CANDIDATES ≤ e.1) →
        (waitUntilIceGatheringStateComplete false events).1
          = .rejected TIME_TO_HOST_CANDIDATES) := by
  refine ⟨?_, ?_, ?_⟩
  · intro ic t h
    cases ic with
    | true => simp [waitUntilIceGatheringStateComplete] at h
    | false =>
      simp only [waitUntilIceGatheringStateComplete, if_neg (by simp : ¬False)] at h
      rw [if_neg Bool.false_ne_true] at h
      exact ⟨runIceWait_rejected_eq_deadline _ _ _ _ h,
        runIceWait_rejected_no_candidate _ _ _ _ hsort h⟩
  · rintro ⟨e, he, hlt, hcand⟩
    rcases runIceWait_resolved_or_rejected (D := TIME_TO_HOST_CANDIDATES) events 0 [] with hres | hrej
    · simpa [waitUntilIceGatheringStateComplete] using hres
    · obtain ⟨t, ht⟩ := hrej
      have := runIceWait_rejected_no_candidate _ _ _ _ hsort ht e he hlt
      rw [hcand] at this
      exact absurd this (by simp)
  · intro hall
    simp only [waitUntilIceGatheringStateComplete]
    rw [if_neg Bool.false_ne_true]
    cases events with
    | nil => simp [runIceWait]
    | cons e0 rest =>
      obtain ⟨te, ev⟩ := e0
      have : TIME_TO_HOST_CANDIDATES ≤ te := hall (te, ev) (by simp)
      simp [runIceWait, this]

/-- Witness for `iceGathering_failure_only_at_deadline`: a single candidate arriving
after the deadline leaves the wait to reject at exactly 10 s. -/
theorem iceGathering_failure_only_at_deadline_witness :
    (waitUntilIceGatheringStateComplete false [(10500, IceEvent.candidate 7)]).1
      = WaitOutcome.rejected TIME_TO_HOST_CANDIDATES := by
  exact (iceGathering_failure_only_at_deadline [(10500, .candidate 7)] (by simp)).2.2
    (by intro e he; simp only [List.mem_singleton] at he; subst he; decide)

theorem spliceLoop_subset (ct : Nat) :
    ∀ (fuel k : Nat) (l : List ReliableRecord), spliceLoop ct fuel k l ⊆ l := by
  intro fuel
  induction fuel with
  | zero => intro k l; exact fun _ h => h
  | succ fuel ih =>
    intro k l
    unfold spliceLoop
    split
    · split
      · exact (ih (k + 1) _).trans (List.eraseIdx_subset _ _)
      · exact ih (k + 1) l
    · exact fun _ h => h

theorem spliceLoop_keeps_unexpired (ct : Nat) {a : ReliableRecord} (ha : ct < a.expire) :
    ∀ (fuel k : Nat) (l : List ReliableRecord), a ∈ l → a ∈ spliceLoop ct fuel k l := by
  intro fuel
  induction fuel with
  | zero => intro k l h; exact h
  | succ fuel ih =>
    intro k l hmem
    unfold spliceLoop
    split
    next hk =>
      split
      next hexp =>
        apply ih
        rw [List.mem_eraseIdx_iff_get?]
        obtain ⟨i, hi⟩ := List.mem_iff_get?.mp hmem
        refine ⟨i, ?_, hi⟩
        intro hik
        subst hik
        have hget : l.get ⟨i, hk⟩ = a := by
          have hq := List.get?_eq_get hk
          rw [hq] at hi
          exact Option.some.inj hi
        rw [hget] at hexp
        omega
      next hexp => exact ih _ _ hmem
    next hk => exact hmem

theorem deleteExpired_subset (ct : Nat) (l : List ReliableRecord) :
    deleteExpiredReliableMessages ct l ⊆ l :=
  spliceLoop_subset ct l.length 0 l

theorem deleteExpired_keeps (ct : Nat) {a : ReliableRecord} (ha : ct < a.expire)
    {l : List ReliableRecord} (hmem : a ∈ l) :
    a ∈ deleteExpiredReliableMessages ct l :=
  spliceLoop_keeps_unexpired ct ha l.length 0 l hmem

theorem channelOn_keeps {a : ReliableRecord} (now : Nat) (st : List ReliableRecord)
    (d : WireData) (ha : now < a.expire) (hmem : a ∈ st) :
    a ∈ (channelOn now st d).1 := by
  rcases hrel : isReliableMessage d with _ | _
  · simpa [channelOn, hrel] using hmem
  · rcases hflt : (((deleteExpiredReliableMessages now st).filter
        (fun o => o.id == d.getID)).length == 0) with _ | _
    · simpa [channelOn, hrel, hflt] using deleteExpired_keeps now ha hmem
    · simp only [channelOn, hrel, hflt, if_true, if_false, Bool.false_eq_true]
      exact List.mem_append_left _ (deleteExpired_keeps now ha hmem)

theorem channelOn_drops {x : String} {r : ReliableRecord} (now : Nat)
    (st : List ReliableRecord) (d : WireData)
    (hrel : isReliableMessage d = true) (hid : d.getID = some x)
    (hr : r ∈ st) (hrid : r.id = some x) (hexp : now < r.expire) :
    channelOn now st d = (deleteExpiredReliableMessages now st, none) := by
  have hmem1 : r ∈ deleteExpiredReliableMessages now st := deleteExpired_keeps now hexp hr
  have hin : r ∈ (deleteExpiredReliableMessages now st).filter (fun o => o.id == d.getID) := by
    apply List.mem_filter.mpr
    refine ⟨hmem1, ?_⟩
    rw [hrid, hid]
    simp
  have hfl : (((deleteExpiredReliableMessages now st).filter
      (fun o => o.id == d.getID)).length == 0) = false := by
    rcases h0 : (((deleteExpiredReliableMessages now st).filter
        (fun o => o.id == d.getID)).length == 0) with _ | _
    · rfl
    · exfalso
      have hlen : ((deleteExpiredReliableMessages now st).filter
          (fun o => o.id == d.getID)).length = 0 := by simpa using h0
      rw [List.length_eq_zero] at hlen
      rw [hlen] at hin
      simp at hin
  simp [channelOn, hrel, hfl]

theorem channelOn_state_sources {a : ReliableRecord} (now : Nat) (st : List ReliableRecord)
    (d : WireData) (h : a ∈ (channelOn now st d).1) :
    a ∈ st ∨ (isReliableMessage d = true ∧ a.id = d.getID) := by
  rcases hrel : isReliableMessage d with _ | _
  · simp only [channelOn, hrel, Bool.false_eq_true, if_false] at h
    exact Or.inl h
  · rcases hflt : (((deleteExpiredReliableMessages now st).filter
        (fun o => o.id == d.getID)).length == 0) with _ | _
    · simp only [channelOn, hrel, hflt, if_true, if_false, Bool.false_eq_true] at h
      exact Or.inl (deleteExpired_subset now st h)
    · simp only [channelOn, hrel, hflt, if_true] at h
      rcases List.mem_append.mp h with h1 | h1
      · exact Or.inl (deleteExpired_subset now st h1)
      · right
        refine ⟨rfl, ?_⟩
        rw [List.mem_singleton.mp h1]

theorem channelRun_state_sources {a : ReliableRecord} :
    ∀ (msgs : List (Nat × WireData)) (st : List ReliableRecord),
      a ∈ (channelRun st msgs).1 →
      a ∈ st ∨ ∃ p ∈ msgs, isReliableMessage p.2 = true ∧ a.id = p.2.getID := by
  intro msgs
  induction msgs with
  | nil => intro st h; exact Or.inl h
  | cons td rest ih =>
    intro st h
    obtain ⟨t, d⟩ := td
    have h1 : a ∈ (channelRun (channelOn t st d).1 rest).1 := h
    rcases ih _ h1 with h2 | ⟨p, hp, hrel, hid⟩
    · rcases channelOn_state_sources t st d h2 with h3 | h3
      · exact Or.inl h3
      · exact Or.inr ⟨(t, d), by simp, h3.1, h3.2⟩
    · exact Or.inr ⟨p, by simp [hp], hrel, hid⟩

theorem channelRun_length (msgs : List (Nat × WireData)) :
    ∀ st, (channelRun st msgs).2.length = msgs.length := by
  induction msgs with
  | nil => intro st; rfl
  | cons td rest ih =>
    intro st
    obtain ⟨t, d⟩ := td
    simp [channelRun, ih]

theorem channelRun_append (l1 l2 : List (Nat × WireData)) :
    ∀ st, channelRun st (l1 ++ l2)
      = ((channelRun (channelRun st l1).1 l2).1,
         (channelRun st l1).2 ++ (channelRun (channelRun st l1).1 l2).2) := by
  induction l1 with
  | nil => intro st; simp [channelRun]
  | cons td rest ih =>
    intro st
    obtain ⟨t, d⟩ := td
    simp [channelRun, ih]

theorem channelRun_drops_while_tracked {x : String} {r : ReliableRecord}
    (hrid : r.id = some x) :
    ∀ (post : List (Nat × WireData)) (st : List ReliableRecord),
      r ∈ st → (∀ p ∈ post, p.1 < r.expire) →
      ∀ j (hj : j < post.length), isRelId (post.get ⟨j, hj⟩).2 x = true →
        (channelRun st post).2.get? j = some none := by
  intro post
  induction post with
  | nil => intro st _ _ j hj; simp at hj
  | cons td rest ih =>
    intro st hr hwin j hj hrel
    obtain ⟨t, d⟩ := td
    have ht : t < r.expire := hwin (t, d) (by simp)
    have hr1 : r ∈ (channelOn t st d).1 := channelOn_keeps t st d ht hr
    cases j with
    | zero =>
      have hd : isRelId d x = true := hrel
      unfold isRelId at hd
      obtain ⟨hrelm, hidb⟩ := Bool.and_eq_true_iff.mp hd
      have hid : d.getID = some x := by simpa using hidb
      have hstep := channelOn_drops t st d hrelm hid hr hrid ht
      show (channelRun st ((t, d) :: rest)).2.get? 0 = some none
      simp [channelRun, hstep]
    | succ j =>
      have hj' : j < rest.length := by simpa using hj
      have hres := ih (channelOn t st d).1 hr1
        (fun p hp => hwin p (by simp [hp])) j hj' hrel
      show (channelRun st ((t, d) :: rest)).2.get? (j + 1) = some none
      simpa [channelRun] using hres

/-- C1: starting from an empty ledger, for any trace `pre ++ first ++ post` in which no
message of `pre` is a reliable envelope with id `x`, the first reliable envelope with
id `x` (any `x` other than the string `'undefined'`) is delivered unwrapped to its
`MESSAGE`, and every reliable envelope with that id received strictly within the
15-second window after the first is rejected (callback not invoked). -/
theorem reliable_dedup_within_window (pre post : List (Nat × WireData)) (t0 : Nat)
    (m x : String) (hx : x ≠ "undefined")
    (hpre : ∀ p ∈ pre, isRelId p.2 x = false)
    (hwin : ∀ p ∈ post, p.1 < t0 + expireTime) :
    (channelRun [] (pre ++ (t0, WireData.obj m (some 1) (some x)) :: post)).2.get? pre.length
        = some (some (Delivered.payload m))
    ∧ ∀ j (hj : j < post.length), isRelId (post.get ⟨j, hj⟩).2 x = true →
        (channelRun [] (pre ++ (t0, WireData.obj m (some 1) (some x)) :: post)).2.get?
            (pre.length + 1 + j) = some none := by
  set d0 : WireData := WireData.obj m (some 1) (some x) with hd0
  have hgid0 : d0.getID = some x := rfl
  have hnox : ∀ a ∈ (channelRun [] pre).1, a.id ≠ some x := by
    intro a ha hax
    rcases channelRun_state_sources pre [] ha with h | ⟨p, hp, hrel, hid⟩
    · simp at h
    · have hgid : p.2.getID = some x := by rw [← hid, hax]
      have hcontra : isRelId p.2 x = true := by
        unfold isRelId
        rw [hrel, hgid]
        simp
    
      rw [hpre p hp] at hcontra
      exact Bool.false_ne_true hcontra
  have hrel0 : isReliableMessage d0 = true := by
    simp [hd0, isReliableMessage, hx]
  have hfilter : (deleteExpiredReliableMessages t0 (channelRun [] pre).1).filter
      (fun o => o.id == d0.getID) = [] := by
    rw [List.filter_eq_nil]
    intro a ha
    have hne := hnox a (deleteExpired_subset t0 _ ha)
    rw [hgid0]
    simpa using hne
  have hstep : channelOn t0 (channelRun [] pre).1 d0
      = (deleteExpiredReliableMessages t0 (channelRun [] pre).1
          ++ [{ id := some x, timestamp := t0, expire := t0 + expireTime }],
         some (Delivered.payload m)) := by
    simp only [channelOn, hrel0, if_true, hfilter, List.length_nil]
    rfl
  have happ := channelRun_append pre ((t0, d0) :: post) []
  have hlenpre : (channelRun [] pre).2.length = pre.length := channelRun_length pre []
  have hrest : (channelRun (channelRun [] pre).1 ((t0, d0) :: post)).2
      = some (Delivered.payload m)
        :: (channelRun (deleteExpiredReliableMessages t0 (channelRun [] pre).1
              ++ [{ id := some x, timestamp := t0, expire := t0 + expireTime }]) post).2 := by
    show ((channelOn t0 (channelRun [] pre).1 d0).2
        :: (channelRun (channelOn t0 (channelRun [] pre).1 d0).1 post).2) = _
    rw [hstep]
  constructor
  · rw [happ, hrest]
    rw [List.get?_append_right (by omega)]
    rw [hlenpre, Nat.sub_self]
    rfl
  · intro j hj hrelj
    rw [happ, hrest]
    rw [List.get?_append_right (by omega)]
    have hidx : pre.length + 1 + j - (channelRun [] pre).2.length = j + 1 := by
      rw [hlenpre]; omega
    rw [hidx]
    show (channelRun (deleteExpiredReliableMessages t0 (channelRun [] pre).1
        ++ [{ id := some x, timestamp := t0, expire := t0 + expireTime }]) post).2.get? j
      = some none
    refine channelRun_drops_while_tracked
      (r := { id := some x, timestamp := t0, expire := t0 + expireTime })
      rfl post _ ?_ ?_ j hj hrelj
    · exact List.mem_append_right _ (by simp)
    · intro p hp
      exact hwin p hp

/-- Witness for `reliable_dedup_within_window`: the same envelope delivered at 0 ms and
rejected on its duplicate at 1000 ms. -/
theorem reliable_dedup_within_window_witness :
    (channelRun [] ([] ++ (0, WireData.obj "hello" (some 1) (some "a"))
        :: [(1000, WireData.obj "hello" (some 1) (some "a"))])).2.get? 0
      = some (some (Delivered.payload "hello"))
    ∧ (channelRun [] ([] ++ (0, WireData.obj "hello" (some 1) (some "a"))
        :: [(1000, WireData.obj "hello" (some 1) (some "a"))])).2.get? 1 = some none := by
  have h := reliable_dedup_within_window []
      [(1000, WireData.obj "hello" (some 1) (some "a"))] 0 "hello" "a"
      (by decide) (by simp) (by decide)
  exact ⟨h.1, h.2 0 (by decide) (by decide)⟩

theorem hasKey_mapSet (k' : String) (v : Transceiver) :
    ∀ (m : List (String × Transceiver)) (k : String),
      hasKey (mapSet m k' v) k = (hasKey m k || k' == k) := by
  intro m
  induction m with
  | nil => intro k; simp [mapSet, hasKey]
  | cons p rest ih =>
    intro k
    rcases hp : (p.1 == k') with _ | _
    · simp only [mapSet, hp, Bool.false_eq_true, if_false, hasKey, List.any_cons]
      have := ih k
      unfold hasKey at this
      rw [this]
      rw [Bool.or_assoc]
    · have hpk : p.1 = k' := by simpa using hp
      simp only [mapSet, hp, if_true, hasKey, List.any_cons, hpk]
      cases hkk : (k' == k) <;> cases ha : rest.any (fun q => q.1 == k) <;>
        simp [hkk, ha]

theorem mem_mapSet {p' : String × Transceiver} {v : Transceiver} :
    ∀ {m : List (String × Transceiver)} {k : String},
      p' ∈ mapSet m k v → p' ∈ m ∨ p'.1 = k := by
  intro m
  induction m with
  | nil =>
    intro k h
    simp only [mapSet, List.mem_singleton] at h
    subst h
    exact Or.inr rfl
  | cons p rest ih =>
    intro k h
    rcases hp : (p.1 == k) with _ | _
    · rw [mapSet, hp] at h
      simp only [Bool.false_eq_true, if_false] at h
      rcases List.mem_cons.mp h with rfl | h1
      · exact Or.inl (List.mem_cons_self _ _)
      · rcases ih h1 with h2 | h2
        · exact Or.inl (List.mem_cons_of_mem _ h2)
        · exact Or.inr h2
    · rw [mapSet, hp] at h
      simp only [if_true] at h
      rcases List.mem_cons.mp h with rfl | h1
      · exact Or.inr rfl
      · exact Or.inl (List.mem_cons_of_mem _ h1)

theorem hasKey_of_mem {m : List (String × Transceiver)} {p : String × Transceiver}
    (hp : p ∈ m) : hasKey m p.1 = true := by
  unfold hasKey
  rw [List.any_eq_true]
  exact ⟨p, hp, by simp⟩

theorem hasKey_filter_ne {m : List (String × Transceiver)} {k id : String}
    (hk : hasKey m k = true) (hne : k ≠ id) :
    hasKey (m.filter fun p => p.1 != id) k = true := by
  unfold hasKey at hk ⊢
  rw [List.any_eq_true] at hk ⊢
  obtain ⟨p, hp, hpk⟩ := hk
  have hpk' : p.1 = k := by simpa using hpk
  refine ⟨p, List.mem_filter.mpr ⟨hp, ?_⟩, hpk⟩
  simp [hpk', hne]

theorem hasKey_filter_self (m : List (String × Transceiver)) (id : String) :
    hasKey (m.filter fun p => p.1 != id) id = false := by
  unfold hasKey
  rw [List.any_eq_false]
  intro p hp
  have := (List.mem_filter.mp hp).2
  simpa using this

theorem any_id_eq_of_map_id_eq {l1 l2 : List SConn}
    (h : l1.map SConn.id = l2.map SConn.id) (k : String) :
    (l1.any fun t => t.id == k) = (l2.any fun t => t.id == k) := by
  have h1 : ∀ l : List SConn,
      (l.any fun t => t.id == k) = ((l.map SConn.id).any fun s => s == k) := by
    intro l
    induction l with
    | nil => rfl
    | cons c rest ih => simp only [List.any_cons, List.map_cons, ih]
  rw [h1 l1, h1 l2, h]

theorem rel_forall₂_mem_right {α β : Type} {R : α → β → Prop} :
    ∀ {l1 : List α} {l2 : List β}, List.Forall₂ R l1 l2 → ∀ b ∈ l2, ∃ a ∈ l1, R a b := by
  intro l1 l2 h
  induction h with
  | nil => intro b hb; simp at hb
  | cons hr _ ih =>
    intro b hb
    rcases List.mem_cons.mp hb with rfl | hb
    · exact ⟨_, List.mem_cons_self _ _, hr⟩
    · obtain ⟨a, ha, har⟩ := ih b hb
      exact ⟨a, List.mem_cons_of_mem _ ha, har⟩

theorem rel_forall₂_mem_left {α β : Type} {R : α → β → Prop} :
    ∀ {l1 : List α} {l2 : List β}, List.Forall₂ R l1 l2 → ∀ a ∈ l1, ∃ b ∈ l2, R a b := by
  intro l1 l2 h
  induction h with
  | nil => intro a ha; simp at ha
  | cons hr _ ih =>
    intro a ha
    rcases List.mem_cons.mp ha with rfl | ha
    · exact ⟨_, List.mem_cons_self _ _, hr⟩
    · obtain ⟨b, hb, hbr⟩ := ih a ha
      exact ⟨b, List.mem_cons_of_mem _ hb, hbr⟩

theorem videoWired_map_id {selfId : String} :
    ∀ {others others1 : List SConn}, List.Forall₂ (VideoWired selfId) others others1 →
      others1.map SConn.id = others.map SConn.id := by
  intro others others1 h
  induction h with
  | nil => rfl
  | cons hr _ ih => simp [ih, hr.1]

theorem audioWired_map_id {selfId : String} :
    ∀ {others others1 : List SConn}, List.Forall₂ (AudioWired selfId) others others1 →
      others1.map SConn.id = others.map SConn.id := by
  intro others others1 h
  induction h with
  | nil => rfl
  | cons hr _ ih => simp [ih, hr.1]

theorem wireVideoAll_ok {selfId : String} {sv : Transceiver} :
    ∀ {others : List SConn} {acc : List (String × Transceiver)} {n : Nat}
      {others1 : List SConn} {acc1 : List (String × Transceiver)} {n1 : Nat},
      wireVideoAll selfId sv others acc n = Except.ok (others1, acc1, n1) →
      List.Forall₂ (VideoWired selfId) others others1
      ∧ (∀ k, hasKey acc1 k = (hasKey acc k || others.any (fun t => t.id == k)))
      ∧ ∀ t ∈ others, t.video.isSome := by
  intro others
  induction others with
  | nil =>
    intro acc n others1 acc1 n1 h
    simp only [wireVideoAll, Except.ok.injEq, Prod.mk.injEq] at h
    obtain ⟨h1, h2, h3⟩ := h
    subst h1
    subst h2
    exact ⟨List.Forall₂.nil, fun k => by simp, by simp⟩
  | cons their rest ih =>
    intro acc n others1 acc1 n1 h
    cases hv : their.video with
    | none =>
      rw [wireVideoAll, wireVideoOne, hv] at h
      simp at h
    | some tv =>
      rw [wireVideoAll, wireVideoOne, hv] at h
      simp only [Option.isSome_some, if_true] at h
      cases hrec : wireVideoAll selfId sv rest
          (mapSet acc their.id { tid := n + 1, senderTrack := some (receiverTrack tv) })
          (n + 2) with
      | error e => rw [hrec] at h; simp at h
      | ok res =>
        obtain ⟨others1', acc2, n2⟩ := res
        rw [hrec] at h
        simp only [Except.ok.injEq, Prod.mk.injEq] at h
        obtain ⟨h1, h2, h3⟩ := h
        subst h1
        subst h2
        subst h3
        obtain ⟨ihf, ihk, ihv⟩ := ih hrec
        refine ⟨List.Forall₂.cons ⟨rfl, by rw [hv], rfl, rfl, rfl, rfl, ⟨_, rfl⟩⟩ ihf, ?_, ?_⟩
        · intro k
          rw [ihk k, hasKey_mapSet, List.any_cons, Bool.or_assoc]
        · intro t ht
          rcases List.mem_cons.mp ht with rfl | ht
          · simp [hv]
          · exact ihv t ht

theorem wireAudioAll_ok {selfId : String} {sa : Transceiver} :
    ∀ {others : List SConn} {acc : List (String × Transceiver)} {n : Nat}
      {others1 : List SConn} {acc1 : List (String × Transceiver)} {n1 : Nat},
      wireAudioAll selfId sa others acc n = Except.ok (others1, acc1, n1) →
      List.Forall₂ (AudioWired selfId) others others1
      ∧ (∀ k, hasKey acc1 k = (hasKey acc k || others.any (fun t => t.id == k)))
      ∧ ∀ t ∈ others, t.audio.isSome := by
  intro others
  induction others with
  | nil =>
    intro acc n others1 acc1 n1 h
    simp only [wireAudioAll, Except.ok.injEq, Prod.mk.injEq] at h
    obtain ⟨h1, h2, h3⟩ := h
    subst h1
    subst h2
    exact ⟨List.Forall₂.nil, fun k => by simp, by simp⟩
  | cons their rest ih =>
    intro acc n others1 acc1 n1 h
    cases ha : their.audio with
    | none =>
      rw [wireAudioAll, wireAudioOne, ha] at h
      simp at h
    | some ta =>
      rw [wireAudioAll, wireAudioOne, ha] at h
      simp only [Option.isSome_some, if_true] at h
      cases hrec : wireAudioAll selfId sa rest
          (mapSet acc their.id { tid := n + 1, senderTrack := some (receiverTrack ta) })
          (n + 2) with
      | error e => rw [hrec] at h; simp at h
      | ok res =>
        obtain ⟨others1', acc2, n2⟩ := res
        rw [hrec] at h
        simp only [Except.ok.injEq, Prod.mk.injEq] at h
        obtain ⟨h1, h2, h3⟩ := h
        subst h1
        subst h2
        subst h3
        obtain ⟨ihf, ihk, ihv⟩ := ih hrec
        refine ⟨List.Forall₂.cons ⟨rfl, rfl, by rw [ha], rfl, rfl, rfl, ⟨_, rfl⟩⟩ ihf, ?_, ?_⟩
        · intro k
          rw [ihk k, hasKey_mapSet, List.any_cons, Bool.or_assoc]
        · intro t ht
          rcases List.mem_cons.mp ht with rfl | ht
          · simp [ha]
          · exact ihv t ht

theorem createWebRTC_no_video (id : String) (ea : Bool) (others : List SConn) (n : Nat) :
    createWebRTCConnection id ea false others n = Except.ok (newSConn id, others, n) := rfl

theorem createWebRTC_video_ok {id : String} {ea : Bool} {others : List SConn} {n : Nat}
    {self1 : SConn} {others2 : List SConn} {n3 : Nat}
    (h : createWebRTCConnection id ea true others n = Except.ok (self1, others2, n3)) :
    ∃ others1 accV accA n2,
      wireVideoAll id { tid := n, senderTrack := none } others [] (n + 1)
        = Except.ok (others1, accV, n2)
      ∧ wireAudioAll id { tid := n2, senderTrack := none } others1 [] (n2 + 1)
        = Except.ok (others2, accA, n3)
      ∧ self1 = { id := id, audio := some { tid := n2, senderTrack := none },
                  video := some { tid := n, senderTrack := none },
                  audioMap := accA, videoMap := accV,
                  additionalCandidates := [], localDescription := none } := by
  unfold createWebRTCConnection setupStreams setupStreamsVideo at h
  simp only [newSConn, if_true] at h
  cases hv : wireVideoAll id { tid := n, senderTrack := none } others [] (n + 1) with
  | error e =>
    rw [hv] at h
    simp [Except.map] at h
  | ok resv =>
    obtain ⟨others1, accV, n2⟩ := resv
    rw [hv] at h
    simp only [Except.map] at h
    unfold setupStreamsAudio at h
    simp only [if_true] at h
    cases hag : wireAudioAll id { tid := n2, senderTrack := none } others1 [] (n2 + 1) with
    | error e =>
      rw [hag] at h
      simp [Except.map] at h
    | ok resa =>
      obtain ⟨othersA, accA, nA⟩ := resa
      rw [hag] at h
      simp only [Except.map, Except.ok.injEq, Prod.mk.injEq] at h
      obtain ⟨h1, h2, h3⟩ := h
      exact ⟨others1, accV, accA, n2, rfl, by rw [h2, h3] at hag; exact hag, h1.symm⟩

theorem regInv_extend_video
    {others others1 others2 : List SConn} {self : SConn} {selfId : String} {n : Nat}
    (hnodup : (others.map SConn.id).Nodup)
    (hmut : ∀ a ∈ others, ∀ b ∈ others, a.id ≠ b.id → a.video.isSome → b.video.isSome →
        hasKey a.videoMap b.id = true ∧ hasKey b.videoMap a.id = true)
    (hdv : ∀ a ∈ others, ∀ p ∈ a.videoMap, ∃ b ∈ others, b.id = p.1)
    (hda : ∀ a ∈ others, ∀ p ∈ a.audioMap, ∃ b ∈ others, b.id = p.1)
    (hfa : List.Forall₂ (VideoWired selfId) others others1)
    (hfb : List.Forall₂ (AudioWired selfId) others1 others2)
    (hfresh : ∀ c ∈ others, c.id ≠ selfId)
    (hid : self.id = selfId)
    (hv : self.video.isSome)
    (hvm : ∀ k, hasKey self.videoMap k = (others.any fun t => t.id == k))
    (ham : ∀ k, hasKey self.audioMap k = (others1.any fun t => t.id == k)) :
    RegInv { registry := others2 ++ [self], nextFresh := n } := by
  have hids1 : others1.map SConn.id = others.map SConn.id := videoWired_map_id hfa
  have hids2 : others2.map SConn.id = others1.map SConn.id := audioWired_map_id hfb
  have hids : others2.map SConn.id = others.map SConn.id := hids2.trans hids1
  have back : ∀ b2 ∈ others2, ∃ b ∈ others, b2.id = b.id ∧ b2.video = b.video
      ∧ (∃ trv, b2.videoMap = mapSet b.videoMap selfId trv)
      ∧ (∃ tra, b2.audioMap = mapSet b.audioMap selfId tra) := by
    intro b2 hb2
    obtain ⟨b1, hb1, hw1⟩ := rel_forall₂_mem_right hfb b2 hb2
    obtain ⟨b, hb, hw0⟩ := rel_forall₂_mem_right hfa b1 hb1
    obtain ⟨ha1, ha2, ha3, ha4, ha5, ha6, tra, ha7⟩ := hw1
    obtain ⟨hv1, hv2, hv3, hv4, hv5, hv6, trv, hv7⟩ := hw0
    refine ⟨b, hb, by rw [ha1, hv1], by rw [ha2, hv2], ⟨trv, by rw [ha4, hv7]⟩,
      ⟨tra, by rw [ha7, hv4]⟩⟩
  have fwd : ∀ b ∈ others, ∃ b2 ∈ others2, b2.id = b.id := by
    intro b hb
    obtain ⟨b1, hb1, hw0⟩ := rel_forall₂_mem_left hfa b hb
    obtain ⟨b2, hb2, hw1⟩ := rel_forall₂_mem_left hfb b1 hb1
    exact ⟨b2, hb2, by rw [hw1.1, hw0.1]⟩
  have hselfnot : selfId ∉ others.map SConn.id := by
    intro hmem
    obtain ⟨c, hc, hcid⟩ := List.mem_map.mp hmem
    exact hfresh c hc hcid
  refine ⟨?_, ?_, ?_, ?_⟩
  · show ((others2 ++ [self]).map SConn.id).Nodup
    rw [List.map_append, hids, List.map_singleton, hid]
    rw [List.nodup_append]
    refine ⟨hnodup, List.nodup_singleton _, ?_⟩
    intro a hmem hsing
    rw [List.mem_singleton] at hsing
    subst hsing
    exact hselfnot hmem
  · intro a2 ha2 b2 hb2 hne hav hbv
    rcases List.mem_append.mp ha2 with ha2' | ha2' <;>
      rcases List.mem_append.mp hb2 with hb2' | hb2'
    · obtain ⟨a, ha, haid, havid, ⟨trva, havm⟩, _⟩ := back a2 ha2'
      obtain ⟨b, hb, hbid, hbvid, ⟨trvb, hbvm⟩, _⟩ := back b2 hb2'
      have hne' : a.id ≠ b.id := by rw [← haid, ← hbid]; exact hne
      have hav' : a.video.isSome := by rw [← havid]; exact hav
      have hbv' : b.video.isSome := by rw [← hbvid]; exact hbv
      obtain ⟨hm1, hm2⟩ := hmut a ha b hb hne' hav' hbv'
      constructor
      · rw [havm, hasKey_mapSet, hbid, hm1, Bool.true_or]
      · rw [hbvm, hasKey_mapSet, haid, hm2, Bool.true_or]
    · rw [List.mem_singleton] at hb2'
      subst hb2'
      obtain ⟨a, ha, haid, _, ⟨trva, havm⟩, _⟩ := back a2 ha2'
      constructor
      · rw [havm, hasKey_mapSet, hid]
        simp
      · rw [hvm a2.id, List.any_eq_true]
        exact ⟨a, ha, by rw [haid]; simp⟩
    · rw [List.mem_singleton] at ha2'
      subst ha2'
      obtain ⟨b, hb, hbid, _, ⟨trvb, hbvm⟩, _⟩ := back b2 hb2'
      constructor
      · rw [hvm b2.id, List.any_eq_true]
        exact ⟨b, hb, by rw [hbid]; simp⟩
      · rw [hbvm, hasKey_mapSet, hid]
        simp
    · rw [List.mem_singleton] at ha2' hb2'
      subst ha2'
      subst hb2'
      exact absurd rfl hne
  · intro a2 ha2 p hp
    rcases List.mem_append.mp ha2 with ha2' | ha2'
    · obtain ⟨a, ha, haid, _, ⟨trva, havm⟩, _⟩ := back a2 ha2'
      rw [havm] at hp
      rcases mem_mapSet hp with hp' | hp'
      · obtain ⟨b, hb, hbid⟩ := hdv a ha p hp'
        obtain ⟨b2, hb2, hb2id⟩ := fwd b hb
        exact ⟨b2, List.mem_append_left _ hb2, by rw [hb2id, hbid]⟩
      · exact ⟨self, List.mem_append_right _ (List.mem_singleton_self _),
          by rw [hid, hp']⟩
    · rw [List.mem_singleton] at ha2'
      subst ha2'
      have hk := hasKey_of_mem hp
      rw [hvm p.1, List.any_eq_true] at hk
      obtain ⟨b, hb, hbid⟩ := hk
      have hbid' : b.id = p.1 := by simpa using hbid
      obtain ⟨b2, hb2, hb2id⟩ := fwd b hb
      exact ⟨b2, List.mem_append_left _ hb2, by rw [hb2id, hbid']⟩
  · intro a2 ha2 p hp
    rcases List.mem_append.mp ha2 with ha2' | ha2'
    · obtain ⟨a, ha, haid, _, _, ⟨tra, haam⟩⟩ := back a2 ha2'
      rw [haam] at hp
      rcases mem_mapSet hp with hp' | hp'
      · obtain ⟨b, hb, hbid⟩ := hda a ha p hp'
        obtain ⟨b2, hb2, hb2id⟩ := fwd b hb
        exact ⟨b2, List.mem_append_left _ hb2, by rw [hb2id, hbid]⟩
      · exact ⟨self, List.mem_append_right _ (List.mem_singleton_self _),
          by rw [hid, hp']⟩
    · rw [List.mem_singleton] at ha2'
      subst ha2'
      have hk := hasKey_of_mem hp
      rw [ham p.1, any_id_eq_of_map_id_eq hids1 p.1, List.any_eq_true] at hk
      obtain ⟨b, hb, hbid⟩ := hk
      have hbid' : b.id = p.1 := by simpa using hbid
      obtain ⟨b2, hb2, hb2id⟩ := fwd b hb
      exact ⟨b2, List.mem_append_left _ hb2, by rw [hb2id, hbid']⟩

theorem regInv_closeConn {st : RegState} (hinv : RegInv st) (id : String) :
    RegInv (closeConn st id) := by
  obtain ⟨hnodup, hmut, hdv, hda⟩ := hinv
  have hmemdec : ∀ c ∈ (closeConn st id).registry,
      ∃ a ∈ st.registry, a.id ≠ id
        ∧ c = { a with audioMap := a.audioMap.filter (fun p => p.1 != id),
                       videoMap := a.videoMap.filter (fun p => p.1 != id) } := by
    intro c hc
    obtain ⟨a, ha, rfl⟩ := List.mem_map.mp hc
    obtain ⟨ha1, ha2⟩ := List.mem_filter.mp ha
    exact ⟨a, ha1, by simpa using ha2, rfl⟩
  refine ⟨?_, ?_, ?_, ?_⟩
  · show (((st.registry.filter (fun c => c.id != id)).map _).map SConn.id).Nodup
    rw [List.map_map]
    have heq : ((st.registry.filter (fun c => c.id != id)).map
        (SConn.id ∘ (fun c => { c with
            audioMap := c.audioMap.filter (fun p => p.1 != id),
            videoMap := c.videoMap.filter (fun p => p.1 != id) })))
        = (st.registry.filter (fun c => c.id != id)).map SConn.id := by
      apply List.map_congr_left
      intro a _
      rfl
    rw [heq]
    exact hnodup.sublist ((List.filter_sublist _).map SConn.id)
  · intro a2 ha2 b2 hb2 hne hav hbv
    obtain ⟨a, ha, hane, rfl⟩ := hmemdec a2 ha2
    obtain ⟨b, hb, hbne, rfl⟩ := hmemdec b2 hb2
    obtain ⟨hm1, hm2⟩ := hmut a ha b hb hne hav hbv
    exact ⟨hasKey_filter_ne hm1 hbne, hasKey_filter_ne hm2 hane⟩
  · intro a2 ha2 p hp
    obtain ⟨a, ha, hane, rfl⟩ := hmemdec a2 ha2
    obtain ⟨hp1, hp2⟩ := List.mem_filter.mp hp
    have hpne : p.1 ≠ id := by simpa using hp2
    obtain ⟨b, hb, hbid⟩ := hdv a ha p hp1
    have hbne : b.id ≠ id := by rw [hbid]; exact hpne
    refine ⟨{ b with audioMap := b.audioMap.filter (fun p => p.1 != id),
                     videoMap := b.videoMap.filter (fun p => p.1 != id) }, ?_, hbid⟩
    apply List.mem_map_of_mem
    exact List.mem_filter.mpr ⟨hb, by simpa using hbne⟩
  · intro a2 ha2 p hp
    obtain ⟨a, ha, hane, rfl⟩ := hmemdec a2 ha2
    obtain ⟨hp1, hp2⟩ := List.mem_filter.mp hp
    have hpne : p.1 ≠ id := by simpa using hp2
    obtain ⟨b, hb, hbid⟩ := hda a ha p hp1
    have hbne : b.id ≠ id := by rw [hbid]; exact hpne
    refine ⟨{ b with audioMap := b.audioMap.filter (fun p => p.1 != id),
                     videoMap := b.videoMap.filter (fun p => p.1 != id) }, ?_, hbid⟩
    apply List.mem_map_of_mem
    exact List.mem_filter.mpr ⟨hb, by simpa using hbne⟩

theorem closeConn_removes_key (st : RegState) (id : String) :
    ∀ c ∈ (closeConn st id).registry,
      hasKey c.videoMap id = false ∧ hasKey c.audioMap id = false := by
  intro c hc
  obtain ⟨a, _, rfl⟩ := List.mem_map.mp hc
  exact ⟨hasKey_filter_self _ _, hasKey_filter_self _ _⟩

theorem regInv_map_fields {st : RegState} (hinv : RegInv st) (g : SConn → SConn)
    (hgid : ∀ c, (g c).id = c.id) (hgv : ∀ c, (g c).video = c.video)
    (hgvm : ∀ c, (g c).videoMap = c.videoMap) (hgam : ∀ c, (g c).audioMap = c.audioMap)
    (n' : Nat) : RegInv { registry := st.registry.map g, nextFresh := n' } := by
  obtain ⟨hnodup, hmut, hdv, hda⟩ := hinv
  have hids : (st.registry.map g).map SConn.id = st.registry.map SConn.id := by
    rw [List.map_map]
    apply List.map_congr_left
    intro a _
    exact hgid a
  refine ⟨?_, ?_, ?_, ?_⟩
  · show ((st.registry.map g).map SConn.id).Nodup
    rw [hids]
    exact hnodup
  · intro a2 ha2 b2 hb2 hne hav hbv
    obtain ⟨a, ha, rfl⟩ := List.mem_map.mp ha2
    obtain ⟨b, hb, rfl⟩ := List.mem_map.mp hb2
    rw [hgid, hgid] at hne
    rw [hgv] at hav
    rw [hgv] at hbv
    obtain ⟨hm1, hm2⟩ := hmut a ha b hb hne hav hbv
    rw [hgvm, hgvm, hgid, hgid]
    exact ⟨hm1, hm2⟩
  · intro a2 ha2 p hp
    obtain ⟨a, ha, rfl⟩ := List.mem_map.mp ha2
    rw [hgvm] at hp
    obtain ⟨b, hb, hbid⟩ := hdv a ha p hp
    exact ⟨g b, List.mem_map_of_mem g hb, by rw [hgid, hbid]⟩
  · intro a2 ha2 p hp
    obtain ⟨a, ha, rfl⟩ := List.mem_map.mp ha2
    rw [hgam] at hp
    obtain ⟨b, hb, hbid⟩ := hda a ha p hp
    exact ⟨g b, List.mem_map_of_mem g hb, by rw [hgid, hbid]⟩

theorem regInv_append_plain {st : RegState} (hinv : RegInv st) {id : String}
    (hfresh : ∀ c ∈ st.registry, c.id ≠ id) (n' : Nat) :
    RegInv { registry := st.registry ++ [newSConn id], nextFresh := n' } := by
  obtain ⟨hnodup, hmut, hdv, hda⟩ := hinv
  refine ⟨?_, ?_, ?_, ?_⟩
  · show ((st.registry ++ [newSConn id]).map SConn.id).Nodup
    rw [List.map_append, List.map_singleton]
    rw [List.nodup_append]
    refine ⟨hnodup, List.nodup_singleton _, ?_⟩
    intro a hmem hsing
    rw [List.mem_singleton] at hsing
    subst hsing
    obtain ⟨c, hc, hcid⟩ := List.mem_map.mp hmem
    exact hfresh c hc hcid
  · intro a2 ha2 b2 hb2 hne hav hbv
    rcases List.mem_append.mp ha2 with ha2' | ha2' <;>
      rcases List.mem_append.mp hb2 with hb2' | hb2'
    · exact hmut a2 ha2' b2 hb2' hne hav hbv
    · rw [List.mem_singleton] at hb2'
      subst hb2'
      simp [newSConn] at hbv
    · rw [List.mem_singleton] at ha2'
      subst ha2'
      simp [newSConn] at hav
    · rw [List.mem_singleton] at ha2' hb2'
      subst ha2'
      subst hb2'
      exact absurd rfl hne
  · intro a2 ha2 p hp
    rcases List.mem_append.mp ha2 with ha2' | ha2'
    · obtain ⟨b, hb, hbid⟩ := hdv a2 ha2' p hp
      exact ⟨b, List.mem_append_left _ hb, hbid⟩
    · rw [List.mem_singleton] at ha2'
      subst ha2'
      simp [newSConn] at hp
  · intro a2 ha2 p hp
    rcases List.mem_append.mp ha2 with ha2' | ha2'
    · obtain ⟨b, hb, hbid⟩ := hda a2 ha2' p hp
      exact ⟨b, List.mem_append_left _ hb, hbid⟩
    · rw [List.mem_singleton] at ha2'
      subst ha2'
      simp [newSConn] at hp

theorem applyOp_preserves_inv {st : RegState} {op : Op} {st1 : RegState}
    (hinv : RegInv st) (h : applyOp st op = Except.ok st1) : RegInv st1 := by
  cases op with
  | close id =>
    simp only [applyOp, Except.ok.injEq] at h
    subst h
    exact regInv_closeConn hinv id
  | reconnect id =>
    simp only [applyOp] at h
    cases hf : findConn st.registry id with
    | none =>
      rw [hf] at h
      simp only [Except.ok.injEq] at h
      subst h
      exact hinv
    | some c =>
      rw [hf] at h
      simp only [Except.ok.injEq] at h
      subst h
      exact regInv_map_fields hinv _ (fun c => by split <;> rfl)
        (fun c => by split <;> rfl) (fun c => by split <;> rfl)
        (fun c => by split <;> rfl) _
  | create id ea ev =>
    simp only [applyOp] at h
    rcases hany : st.registry.any (fun c => c.id == id) with _ | _
    · rw [hany] at h
      simp only [Bool.false_eq_true, if_false] at h
      have hfresh : ∀ c ∈ st.registry, c.id ≠ id := by
        intro c hc hcid
        have hx : st.registry.any (fun c => c.id == id) = true := by
          rw [List.any_eq_true]
          exact ⟨c, hc, by simp [hcid]⟩
        rw [hany] at hx
        exact Bool.false_ne_true hx
      cases ev with
      | false =>
        rw [createWebRTC_no_video] at h
        simp only [Except.ok.injEq] at h
        subst h
        exact regInv_append_plain hinv hfresh _
      | true =>
        cases hc : createWebRTCConnection id ea true st.registry st.nextFresh with
        | error e =>
          rw [hc] at h
          simp at h
        | ok res =>
          obtain ⟨self1, others2, n3⟩ := res
          rw [hc] at h
          simp only [Except.ok.injEq] at h
          subst h
          obtain ⟨others1, accV, accA, n2, hwv, hwa, hself⟩ := createWebRTC_video_ok hc
          obtain ⟨hfa, hkv, _⟩ := wireVideoAll_ok hwv
          obtain ⟨hfb, hka, _⟩ := wireAudioAll_ok hwa
          obtain ⟨hnodup, hmut, hdv, hda⟩ := hinv
          subst hself
          refine regInv_extend_video hnodup hmut hdv hda hfa hfb hfresh rfl (by simp)
            ?_ ?_
          · intro k
            have hk := hkv k
            simpa [hasKey] using hk
          · intro k
            have hk := hka k
            simpa [hasKey] using hk
    · rw [hany] at h
      simp at h

theorem runOps_preserves_inv :
    ∀ (ops : List Op) (st st1 : RegState),
      RegInv st → runOps st ops = Except.ok st1 → RegInv st1 := by
  intro ops
  induction ops with
  | nil =>
    intro st st1 hinv h
    simp only [runOps, Except.ok.injEq] at h
    subst h
    exact hinv
  | cons op rest ih =>
    intro st st1 hinv h
    cases ha : applyOp st op with
    | error e =>
      rw [runOps, ha] at h
      simp at h
    | ok st' =>
      rw [runOps, ha] at h
      exact ih st' st1 (applyOp_preserves_inv hinv ha) h

theorem regInv_init : RegInv initRegState := by
  refine ⟨?_, ?_, ?_, ?_⟩ <;> simp [initRegState]

/-- C6: in any state reachable by a sequence of create/close/reconnect operations that
runs without error, (1) any two distinct live connections with video enabled hold
routing entries for each other in their `videoMap`s, (2) every `videoMap` and
`audioMap` key names a live connection (no dangling forwarding targets), and
(3) closing any connection removes its entry from every remaining connection's
peer routes. -/
theorem track_routing_symmetric_no_dangling (ops : List Op) (st : RegState)
    (hok : runOps initRegState ops = Except.ok st) :
    (∀ a ∈ st.registry, ∀ b ∈ st.registry, a.id ≠ b.id →
        a.video.isSome → b.video.isSome →
        hasKey a.videoMap b.id = true ∧ hasKey b.videoMap a.id = true)
    ∧ (∀ a ∈ st.registry, ∀ p ∈ a.videoMap, ∃ b ∈ st.registry, b.id = p.1)
    ∧ (∀ a ∈ st.registry, ∀ p ∈ a.audioMap, ∃ b ∈ st.registry, b.id = p.1)
    ∧ (∀ id, ∀ c ∈ (closeConn st id).registry,
        hasKey c.videoMap id = false ∧ hasKey c.audioMap id = false) := by
  obtain ⟨_, hmut, hdv, hda⟩ := runOps_preserves_inv ops initRegState st regInv_init hok
  exact ⟨hmut, hdv, hda, fun id => closeConn_removes_key st id⟩

/-- Witness for `track_routing_symmetric_no_dangling`: after two video-enabled
connections "a" and "b" join, each one's `videoMap` routes to the other. -/
theorem track_routing_symmetric_no_dangling_witness :
    hasKey c6ConnA.videoMap c6ConnB.id = true
    ∧ hasKey c6ConnB.videoMap c6ConnA.id = true := by
  have h := track_routing_symmetric_no_dangling c6Ops c6State (by rfl)
  exact h.1 c6ConnA (by simp [c6State]) c6ConnB (by simp [c6State])
    (by decide) (by decide) (by decide)
